import Mathlib

/-!
Verification development for the package-lifecycle core in `src/bldr/pkg.rs`.

Each definition below is a shallow embedding of the corresponding Rust item.
Strings are Lean `String`s, viewed as lists of characters; Rust byte-wise
string comparison agrees with codepoint comparison because UTF-8 preserves
codepoint order.  Fallible Rust functions returning `BldrResult<T>` become
`Except ErrorKind T`.  Filesystem and subprocess collaborators are modelled
as explicit environment records recording each collaborator's outcome.
-/

set_option autoImplicit false

deriving instance DecidableEq for Except

/-- MetaFile: the closed enum of archive metadata keys (`pkg.rs`). -/
inductive MetaFile where
  | CFlags
  | Deps
  | Exposes
  | Ident
  | LdRunPath
  | LdFlags
  | Manifest
  | Path
deriving DecidableEq

/-- HookType: the closed enum of lifecycle hooks (`pkg.rs`). -/
inductive HookType where
  | HealthCheck
  | Reconfigure
  | Run
  | Init
deriving DecidableEq

/-- Modelled from the spec: the error taxonomy of `error.rs` (`ErrorKind`),
which is not under `src/`; the variants and their payloads follow §7 of the
spec.  `IoFailure` stands for the generic filesystem/IO and process-launch
failures the spec groups together.  The spec maps the numeric-parse failure
inside the version comparator to `BadVersion`. -/
inductive ErrorKind where
  | InvalidPackageIdent (id : String)
  | PackageLoad (path : String)
  | PackageNotFound (deriv : String) (name : String) (ver : Option String)
  | BadVersion
  | MetaFileNotFound (f : MetaFile)
  | ArchiveReadFailed (msg : String)
  | UnpackFailed
  | HookFailed (t : HookType) (code : Int) (output : String)
  | HealthCheck (msg : String)
  | SupervisorSignalFailed
  | IoFailure
deriving DecidableEq

/-- Package: the four-coordinate identity with its optional dependency list
(`struct Package` in `pkg.rs`).  Recursive through `deps`, so an inductive. -/
inductive Package where
  | mk (derivation name version release : String) (deps : Option (List Package))

def Package.derivation : Package → String
  | .mk d _ _ _ _ => d

def Package.name : Package → String
  | .mk _ n _ _ _ => n

def Package.version : Package → String
  | .mk _ _ v _ _ => v

def Package.release : Package → String
  | .mk _ _ _ r _ => r

def Package.deps : Package → Option (List Package)
  | .mk _ _ _ _ ds => ds

/-- `Package::new`: constructs a package with no dependencies. -/
def Package.new (deriv name version release : String) : Package :=
  .mk deriv name version release none

/-- `Package::add_dep`: pushes one dependency, creating the vector on first use. -/
def Package.add_dep (p : Package) (dep : Package) : Package :=
  match p with
  | .mk d n v r ds =>
    match ds with
    | some l => .mk d n v r (some (l ++ [dep]))
    | none => .mk d n v r (some [dep])

/-! ### Character-list utilities

Rust's `str::split` on a one-character pattern, `str::trim`, and byte-wise
`Ord` on `String` are embedded as structural functions on `List Char`. -/

/-- Rust `split(sep)` semantics on a character list: always returns at least
one (possibly empty) piece; `""` splits to `[""]`. -/
def splitCh (sep : Char) : List Char → List (List Char)
  | [] => [[]]
  | c :: t =>
    if c = sep then [] :: splitCh sep t
    else
      match splitCh sep t with
      | h :: r => (c :: h) :: r
      | [] => [[c]]

def splitStr (sep : Char) (s : String) : List String :=
  (splitCh sep s.data).map String.mk

/-- Rust `str::trim` (whitespace at both ends; inputs of interest are ASCII,
where Lean's `Char.isWhitespace` and Unicode `White_Space` agree). -/
def trimChars (l : List Char) : List Char :=
  ((l.dropWhile Char.isWhitespace).reverse.dropWhile Char.isWhitespace).reverse

def trimStr (s : String) : String :=
  String.mk (trimChars s.data)

/-- Byte-wise (equivalently codepoint-wise) lexicographic comparison, as in
Rust `Ord for String`. -/
def lexCmp : List Char → List Char → Ordering
  | [], [] => .eq
  | [], _ :: _ => .lt
  | _ :: _, [] => .gt
  | a :: as, b :: bs =>
    if a < b then .lt
    else if b < a then .gt
    else lexCmp as bs

def digitVal (c : Char) : Nat := c.toNat - 48

def digitsVal (l : List Char) : Nat :=
  l.foldl (fun a c => a * 10 + digitVal c) 0

/-- Modelled from the spec: Rust `str::parse::<u64>()` combined with the
`From` conversion of its error into `BldrError` (`error.rs` is not under
`src/`); per §4.1 a non-numeric (or out-of-u64-range) component yields
`BadVersion`.  In `version_sort` every parsed component is a run of ASCII
digits (possibly empty), for which this model is exact. -/
def parseU64 (s : String) : Except ErrorKind Nat :=
  if !s.data.isEmpty && s.data.all Char.isDigit
      && decide (digitsVal s.data < 18446744073709551616) then
    .ok (digitsVal s.data)
  else
    .error .BadVersion

/-- The character class `[\d\.]` of the `split_version` regex. -/
def isVerChar (c : Char) : Bool := c.isDigit || c = '.'

/-- `split_version` (`pkg.rs`): embeds the unanchored regex
`([\d\.]+)(-.+)?`.  The leftmost match starts at the first digit-or-dot
character; group 1 is the maximal digit-or-dot run from there; group 2
matches when that run is immediately followed by a dash and at least one
non-newline character, and extends to the last such character (`.` in the
Rust regex crate does not match a newline); everything after the match is
ignored.  The leading dash of the extension is removed.  `extAfter` reads
the optional group 2 from the characters following the digit-or-dot run. -/
def extAfter : List Char → Option String
  | '-' :: t =>
    if (t.takeWhile (fun c => c ≠ '\n')).isEmpty then none
    else some (String.mk (t.takeWhile (fun c => c ≠ '\n')))
  | _ => none

def split_version (version : String) : Except ErrorKind (List String × Option String) :=
  if (version.data.dropWhile (fun c => !isVerChar c)).isEmpty then
    .error .BadVersion
  else
    .ok ((splitCh '.'
        ((version.data.dropWhile (fun c => !isVerChar c)).takeWhile isVerChar)).map String.mk,
      extAfter ((version.data.dropWhile (fun c => !isVerChar c)).dropWhile isVerChar))

/-- The `version_sort` loop once `b`'s components are exhausted: each
remaining `a` component is parsed and compared against `0`. -/
def cmpZerosA : List String → Except ErrorKind Ordering
  | [] => .ok .eq
  | a :: as =>
    match parseU64 a with
    | .error e => .error e
    | .ok n => if 0 < n then .ok .gt else cmpZerosA as

/-- Mirror of `cmpZerosA` for the case where `a`'s components are exhausted. -/
def cmpZerosB : List String → Except ErrorKind Ordering
  | [] => .ok .eq
  | b :: bs =>
    match parseU64 b with
    | .error e => .error e
    | .ok n => if 0 < n then .ok .lt else cmpZerosB bs

/-- The pairwise walk in `version_sort`'s `loop`: components are parsed on
demand (so a later malformed component is never reached once the walk
short-circuits), a missing component past one sequence's end reads as `0`,
and the first difference decides. -/
def cmpLoop : List String → List String → Except ErrorKind Ordering
  | [], bs => cmpZerosB bs
  | a :: as, [] => cmpZerosA (a :: as)
  | a :: as, b :: bs =>
    match parseU64 a with
    | .error e => .error e
    | .ok an =>
      match parseU64 b with
      | .error e => .error e
      | .ok bn =>
        if an < bn then .ok .lt
        else if bn < an then .ok .gt
        else cmpLoop as bs

/-- `version_sort` (`pkg.rs`): split both versions, walk the numeric
components, then break ties on the extensions (no extension beats an
extension; two extensions compare lexicographically). -/
def version_sort (a_version b_version : String) : Except ErrorKind Ordering :=
  match split_version a_version with
  | .error e => .error e
  | .ok (a_parts, a_extension) =>
    match split_version b_version with
    | .error e => .error e
    | .ok (b_parts, b_extension) =>
      match cmpLoop a_parts b_parts with
      | .error e => .error e
      | .ok .gt => .ok .gt
      | .ok .lt => .ok .lt
      | .ok .eq =>
        match a_extension, b_extension with
        | some _, none => .ok .lt
        | none, some _ => .ok .gt
        | none, none => .ok .eq
        | some a, some b => .ok (lexCmp a.data b.data)

/-- `PartialOrd for Package` (`partial_cmp` in `pkg.rs`): incomparable when
the names differ, otherwise the `version_sort` result (`none` when it
errors), with equal versions falling back to byte-wise comparison of the
releases.  Derivation never enters the comparison. -/
def package_cmp (p other : Package) : Option Ordering :=
  if p.name ≠ other.name then
    none
  else
    match version_sort p.version other.version with
    | .error _ => none
    | .ok .gt => some .gt
    | .ok .lt => some .lt
    | .ok .eq => some (lexCmp p.release.data other.release.data)

/-- `Package::from_ident`: split on `/`, require exactly 4 segments, trim each. -/
def from_ident (id : String) : Except ErrorKind Package :=
  match splitStr '/' id with
  | [a, b, c, d] => .ok (Package.new (trimStr a) (trimStr b) (trimStr c) (trimStr d))
  | _ => .error (.InvalidPackageIdent id)

/-- Modelled from the spec: `fs::PACKAGE_HOME`, the package installation
root constant (§6 `<install-root>`), defined in `fs.rs` which is not under
`src/`. -/
def PACKAGE_HOME : String := "/opt/bldr/pkgs"

/-- Modelled from the spec: `fs::SERVICE_HOME`, the per-service root
constant (§6 `<service-root>`), defined in `fs.rs` which is not under
`src/`. -/
def SERVICE_HOME : String := "/opt/bldr/srvc"

/-- Non-empty path segments of a string path. -/
def pathSegs (s : String) : List String :=
  (splitStr '/' s).filter (fun seg => seg ≠ "")

def segsLeadEq : List String → List String → Bool
  | [], _ => true
  | _ :: _, [] => false
  | a :: as, b :: bs => a == b && segsLeadEq as bs

def isAbsPath (s : String) : Bool :=
  match s.data with
  | '/' :: _ => true
  | _ => false

/-- Rust `Path::starts_with`: component-wise prefix test (absolute-ness must
agree, then the root's segments must lead the path's segments; `.`-segment
normalisation is irrelevant for the paths at hand). -/
def path_starts_with (p root : String) : Bool :=
  (isAbsPath p == isAbsPath root) && segsLeadEq (pathSegs root) (pathSegs p)

/-- `Package::from_path`: when the path starts with `PACKAGE_HOME`, read the
four coordinates from the raw `/`-split at indices 3..6 — Rust's slice
indexing panics when an index is out of range, modelled by the outer
`Option` (`none` = panic); otherwise fail with `PackageLoad`. -/
def from_path (spath : String) : Option (Except ErrorKind Package) :=
  if path_starts_with spath PACKAGE_HOME then
    let items := splitStr '/' spath
    match items[3]?, items[4]?, items[5]?, items[6]? with
    | some a, some b, some c, some d =>
      some (.ok (Package.new (trimStr a) (trimStr b) (trimStr c) (trimStr d)))
    | _, _, _, _ => none
  else
    some (.error (.PackageLoad spath))

/-- `Package::join_path`: `PACKAGE_HOME/deriv/name/version/release/join`. -/
def join_path (p : Package) (join : String) : String :=
  PACKAGE_HOME ++ "/" ++ p.derivation ++ "/" ++ p.name ++ "/" ++ p.version
    ++ "/" ++ p.release ++ "/" ++ join

/-- `Package::srvc_join_path`: `SERVICE_HOME/name/join`. -/
def srvc_join_path (p : Package) (join : String) : String :=
  SERVICE_HOME ++ "/" ++ p.name ++ "/" ++ join

/-- The fixed hook file names (`INIT_FILENAME` etc. in `pkg.rs`). -/
def hook_filename : HookType → String
  | .Init => "init"
  | .HealthCheck => "health_check"
  | .Reconfigure => "reconfigure"
  | .Run => "run"

/-- `Package::hook_path`: compiled hook location under the service tree. -/
def hook_path (p : Package) (t : HookType) : String :=
  srvc_join_path p "hooks" ++ "/" ++ hook_filename t

/-- `Package::hook_template_path`: template location under the package tree. -/
def hook_template_path (p : Package) (t : HookType) : String :=
  join_path p "hooks" ++ "/" ++ hook_filename t

/-! ### Claim-side characterization of the version walk (C2)

`padCmp` states the algorithm the way the spec does: walk the already-parsed
numeric components pairwise, a missing component past one sequence's end
reading as `0`, deciding at the first differing position. -/

def padZA : List Nat → Ordering
  | [] => .eq
  | x :: xs => if 0 < x then .gt else padZA xs

def padZB : List Nat → Ordering
  | [] => .eq
  | y :: ys => if 0 < y then .lt else padZB ys

def padCmp : List Nat → List Nat → Ordering
  | [], ys => padZB ys
  | x :: xs, [] => padZA (x :: xs)
  | x :: xs, y :: ys =>
    if x < y then .lt
    else if y < x then .gt
    else padCmp xs ys

/-- The spec's extension tiebreak: no extension beats an extension; two
extensions compare in byte/codepoint order; none means equal. -/
def specExtCmp : Option String → Option String → Ordering
  | some _, none => .lt
  | none, some _ => .gt
  | none, none => .eq
  | some x, some y => lexCmp x.data y.data

/-- The spec's whole comparison over split-and-parsed versions. -/
def specVersionCmp (xs ys : List Nat) (ae be : Option String) : Ordering :=
  match padCmp xs ys with
  | .eq => specExtCmp ae be
  | o => o

/-- Parse a whole component sequence, error at the first failure. -/
def parseAll : List String → Except ErrorKind (List Nat)
  | [] => .ok []
  | s :: rest =>
    match parseU64 s with
    | .error e => .error e
    | .ok n =>
      match parseAll rest with
      | .error e => .error e
      | .ok ns => .ok (n :: ns)

theorem parseAll_cons_ok {s : String} {rest : List String} {l : List Nat}
    (h : parseAll (s :: rest) = .ok l) :
    ∃ n ns, parseU64 s = .ok n ∧ parseAll rest = .ok ns ∧ l = n :: ns := by
  unfold parseAll at h
  cases hs : parseU64 s with
  | error e => rw [hs] at h; cases h
  | ok n =>
    rw [hs] at h
    cases hr : parseAll rest with
    | error e => rw [hr] at h; cases h
    | ok ns =>
      rw [hr] at h
      cases h
      exact ⟨n, ns, rfl, rfl, rfl⟩

theorem cmpZerosA_eq_padZA {as : List String} {xs : List Nat}
    (h : parseAll as = .ok xs) : cmpZerosA as = .ok (padZA xs) := by
  induction as generalizing xs with
  | nil =>
    cases h
    rfl
  | cons a rest ih =>
    obtain ⟨n, ns, hp, hr, hl⟩ := parseAll_cons_ok h
    subst hl
    unfold cmpZerosA
    rw [hp]
    by_cases hn : 0 < n
    · simp [padZA, hn]
    · simp [padZA, hn, ih hr]

theorem cmpZerosB_eq_padZB {bs : List String} {ys : List Nat}
    (h : parseAll bs = .ok ys) : cmpZerosB bs = .ok (padZB ys) := by
  induction bs generalizing ys with
  | nil =>
    cases h
    rfl
  | cons b rest ih =>
    obtain ⟨n, ns, hp, hr, hl⟩ := parseAll_cons_ok h
    subst hl
    unfold cmpZerosB
    rw [hp]
    by_cases hn : 0 < n
    · simp [padZB, hn]
    · simp [padZB, hn, ih hr]

theorem cmpLoop_eq_padCmp {as bs : List String} {xs ys : List Nat}
    (ha : parseAll as = .ok xs) (hb : parseAll bs = .ok ys) :
    cmpLoop as bs = .ok (padCmp xs ys) := by
  induction as generalizing bs xs ys with
  | nil =>
    cases ha
    show cmpZerosB bs = .ok (padCmp [] ys)
    rw [cmpZerosB_eq_padZB hb]
    rfl
  | cons a rest ih =>
    obtain ⟨n, ns, hp, hr, hl⟩ := parseAll_cons_ok ha
    subst hl
    cases bs with
    | nil =>
      cases hb
      show cmpZerosA (a :: rest) = .ok (padCmp (n :: ns) [])
      rw [cmpZerosA_eq_padZA ha]
      rfl
    | cons b brest =>
      obtain ⟨m, ms, hpb, hrb, hlb⟩ := parseAll_cons_ok hb
      subst hlb
      show cmpLoop (a :: rest) (b :: brest) = _
      unfold cmpLoop
      rw [hp, hpb]
      by_cases h1 : n < m
      · simp [padCmp, h1]
      · by_cases h2 : m < n
        · simp [padCmp, h1, h2]
        · simp [padCmp, h1, h2, ih hr hrb]

theorem version_sort_eval (a b : String) (ap bp : List String)
    (ae be : Option String) (xs ys : List Nat)
    (ha : split_version a = .ok (ap, ae)) (hb : split_version b = .ok (bp, be))
    (hxa : parseAll ap = .ok xs) (hyb : parseAll bp = .ok ys) :
    version_sort a b = .ok (specVersionCmp xs ys ae be) := by
  unfold version_sort
  rw [ha, hb]
  dsimp only
  rw [cmpLoop_eq_padCmp hxa hyb]
  cases hpad : padCmp xs ys with
  | lt => simp [specVersionCmp, hpad]
  | gt => simp [specVersionCmp, hpad]
  | eq => cases ae <;> cases be <;> simp [specVersionCmp, hpad, specExtCmp]

/-- Claim C2: for every pair of valid version strings (both split
successfully and every numeric component parses), `version_sort` returns
exactly the spec's comparison: the pairwise numeric walk with missing
components read as `0` and the first difference deciding, then — when all
numeric components tie — no-extension beats extension, two extensions
compare lexicographically, and two extension-free versions are equal. -/
theorem version_sort_valid_spec (a b : String) (ap bp : List String)
    (ae be : Option String) (xs ys : List Nat)
    (ha : split_version a = .ok (ap, ae)) (hb : split_version b = .ok (bp, be))
    (hxa : parseAll ap = .ok xs) (hyb : parseAll bp = .ok ys) :
    version_sort a b = .ok (specVersionCmp xs ys ae be) :=
  version_sort_eval a b ap bp ae be xs ys ha hb hxa hyb

theorem version_sort_valid_spec_witness :
    split_version "1.0" = .ok (["1", "0"], none)
      ∧ split_version "1.0-a" = .ok (["1", "0"], some "a")
      ∧ parseAll ["1", "0"] = .ok [1, 0]
      ∧ version_sort "1.0" "1.0-a" = .ok (specVersionCmp [1, 0] [1, 0] none (some "a")) :=
  ⟨by decide, by decide, by decide,
    version_sort_valid_spec "1.0" "1.0-a" ["1", "0"] ["1", "0"] none (some "a")
      [1, 0] [1, 0] (by decide) (by decide) (by decide) (by decide)⟩

theorem lexCmp_self : ∀ l : List Char, lexCmp l l = .eq
  | [] => rfl
  | a :: as => by
    unfold lexCmp
    rw [if_neg (lt_irrefl a), if_neg (lt_irrefl a)]
    exact lexCmp_self as

/-- Claim C1: `partial_cmp` (here `package_cmp`) returns no ordering when
the names differ; otherwise it returns the `version_sort` result on the
version fields, falling back to the lexicographic comparison of the release
fields when the versions compare equal; derivation is ignored throughout,
so two packages tying at version level (equal names, versions comparing
equal, equal releases) compare `Equal` whatever their derivations. -/
theorem package_cmp_spec (p q : Package) :
    (p.name ≠ q.name → package_cmp p q = none)
      ∧ (∀ o : Ordering, p.name = q.name →
          version_sort p.version q.version = .ok o →
          package_cmp p q = some (match o with
            | .eq => lexCmp p.release.data q.release.data
            | .lt => .lt
            | .gt => .gt))
      ∧ (p.name = q.name → version_sort p.version q.version = .ok .eq →
          p.release = q.release → package_cmp p q = some .eq) := by
  refine ⟨fun h => by simp [package_cmp, h], fun o hn hv => ?_, fun hn hv hr => ?_⟩
  · cases o <;> simp [package_cmp, hn, hv]
  · simp [package_cmp, hn, hv, hr, lexCmp_self]

theorem package_cmp_spec_witness :
    package_cmp (Package.new "adam" "bldr" "1.0.0" "20150521131555")
        (Package.new "bldr" "bldr" "1.0.0" "20150521131555") = some .eq :=
  (package_cmp_spec _ _).2.2 rfl (by decide) rfl

/-! ### `Package::latest` — directory enumeration, filter and fold (C3)

The installed-package tree is modelled as the four-level nested listing the
directory walkers traverse: derivation directories, each holding name
directories, each holding version directories, each holding release
entries. -/

abbrev InstallTree := List (String × List (String × List (String × List String)))

/-- `Package::walk_releases`: one package per release entry. -/
def walk_releases (derivation name version : String) (releases : List String) : List Package :=
  releases.map (fun release => Package.new derivation name version release)

/-- `Package::walk_versions`. -/
def walk_versions (derivation name : String) :
    List (String × List String) → List Package
  | [] => []
  | (version, rels) :: rest =>
    walk_releases derivation name version rels ++ walk_versions derivation name rest

/-- `Package::walk_names`. -/
def walk_names (derivation : String) :
    List (String × List (String × List String)) → List Package
  | [] => []
  | (name, vers) :: rest =>
    walk_versions derivation name vers ++ walk_names derivation rest

/-- `Package::walk_derivations`. -/
def walk_derivations : InstallTree → List Package
  | [] => []
  | (derivation, names) :: rest =>
    walk_names derivation names ++ walk_derivations rest

/-- `Package::package_list`: every package found under the root. -/
def package_list (root : InstallTree) : List Package :=
  walk_derivations root

/-- The filter in `Package::latest`: matching name and derivation, and
matching version when one is requested. -/
def matchesQuery (deriv pkg : String) (ver : Option String) (p : Package) : Bool :=
  match ver with
  | some v => p.name == pkg && p.derivation == deriv && p.version == v
  | none => p.name == pkg && p.derivation == deriv

/-- The fold step in `Package::latest`: keep the current winner on
`Greater`, `Equal` or an incomparable pair; replace it only on `Less`. -/
def latestStep (winner : Option Package) (b : Package) : Option Package :=
  match winner with
  | some a =>
    match package_cmp a b with
    | some .gt => some a
    | some .eq => some a
    | some .lt => some b
    | none => some a
  | none => some b

def latestFold (l : List Package) : Option Package :=
  l.foldl latestStep none

/-- `Package::latest`: enumerate, filter, fold; `PackageNotFound` when the
fold produces no winner. -/
def latest (deriv pkg : String) (ver : Option String) (root : InstallTree) :
    Except ErrorKind Package :=
  match latestFold ((package_list root).filter (matchesQuery deriv pkg ver)) with
  | some p => .ok p
  | none => .error (.PackageNotFound deriv pkg ver)

/-- The claim's fold rule, stated independently: replace the winner exactly
when the comparison is `Less`. -/
def keepOrReplace (a b : Package) : Package :=
  if package_cmp a b = some .lt then b else a

def specStep (w : Option Package) (b : Package) : Option Package :=
  match w with
  | none => some b
  | some a => some (keepOrReplace a b)

def specLatest (l : List Package) : Option Package :=
  l.foldl specStep none

theorem latestStep_eq_specStep : latestStep = specStep := by
  funext w b
  cases w with
  | none => rfl
  | some a =>
    cases h : package_cmp a b with
    | none => simp [latestStep, specStep, keepOrReplace, h]
    | some o => cases o <;> simp [latestStep, specStep, keepOrReplace, h]

theorem specLatest_some_acc (l : List Package) :
    ∀ a : Package, ∃ p : Package, l.foldl specStep (some a) = some p := by
  induction l with
  | nil => exact fun a => ⟨a, rfl⟩
  | cons b rest ih => exact fun a => ih (keepOrReplace a b)

theorem specLatest_eq_none_iff (l : List Package) :
    specLatest l = none ↔ l = [] := by
  cases l with
  | nil => simp [specLatest]
  | cons b rest =>
    simp only [specLatest, List.foldl_cons]
    constructor
    · intro h
      obtain ⟨p, hp⟩ := specLatest_some_acc rest b
      rw [show List.foldl specStep (specStep none b) rest
            = List.foldl specStep (some b) rest from rfl, hp] at h
      cases h
    · intro h
      cases h

/-- Claim C3: `latest` enumerates the four-level installed-package tree,
filters candidates by name and derivation (and version when given), and
folds with the rule "keep the current winner on `Greater`, `Equal` or an
incomparable pair; replace it only on `Less`" (`specLatest`); it fails with
`PackageNotFound(derivation, name, version?)` exactly when no candidate
remains after filtering. -/
theorem latest_fold_spec (deriv pkg : String) (ver : Option String) (root : InstallTree) :
    (latest deriv pkg ver root = .error (.PackageNotFound deriv pkg ver)
        ↔ (package_list root).filter (matchesQuery deriv pkg ver) = [])
      ∧ (∀ p : Package,
          latest deriv pkg ver root = .ok p
            ↔ specLatest ((package_list root).filter (matchesQuery deriv pkg ver)) = some p) := by
  have hfold : latestFold ((package_list root).filter (matchesQuery deriv pkg ver))
      = specLatest ((package_list root).filter (matchesQuery deriv pkg ver)) := by
    unfold latestFold specLatest
    rw [latestStep_eq_specStep]
  constructor
  · unfold latest
    rw [hfold]
    cases h : specLatest ((package_list root).filter (matchesQuery deriv pkg ver)) with
    | none =>
      simp only [h]
      exact ⟨fun _ => (specLatest_eq_none_iff _).mp h, fun _ => trivial⟩
    | some q =>
      simp only [h]
      constructor
      · intro hc
        cases hc
      · intro hc
        rw [hc] at h
        simp [specLatest] at h
  · intro p
    unfold latest
    rw [hfold]
    cases h : specLatest ((package_list root).filter (matchesQuery deriv pkg ver)) with
    | none =>
      simp only [h]
      constructor
      · intro hc
        cases hc
      · intro hc
        cases hc
    | some q =>
      simp only [h]
      constructor
      · intro hc
        cases hc
        rfl
      · intro hc
        cases hc
        rfl

/-! ### PackageUpdater (C4)

One timer tick of the updater actor.  The repository client, the fetch, the
signature verification and the unpack are external collaborators; their
outcomes for the tick are recorded in `TimeoutEnv`.  The Rust code calls
`.unwrap()` on `verify()` and `unpack()`, so a failure there aborts the
process — modelled by the outer `Option` (`none` = panic).  The result
carries the new actor state, the rescheduled timeout (`HandleResult`'s
payload) and the messages sent to the owner during the tick. -/

def TIMEOUT_MS : Nat := 60000

inductive UpdaterStatus where
  | Running
  | Stopped
deriving DecidableEq

inductive UpdaterMessage where
  | Ok
  | Run
  | Stop
  | Update (p : Package)

structure UpdaterState where
  repo : String
  package : Package
  status : UpdaterStatus

structure TimeoutEnv where
  query : Except Unit Package
  fetch : Except Unit Unit
  verifyOk : Bool
  unpackOk : Bool

/-- `PackageUpdater::handle_timeout` (`pkg.rs`): query the repository for
the newest matching package; on a strictly newer result (`latest > *package`
in Rust, i.e. `partial_cmp` returning `Greater`), fetch, verify and unpack
it, mark the updater `Stopped` and cast exactly one `Update` message;
every failure of query or fetch just re-arms the timer. -/
def handle_timeout (env : TimeoutEnv) (st : UpdaterState) :
    Option (UpdaterState × Option Nat × List UpdaterMessage) :=
  match env.query with
  | .ok latestPkg =>
    if package_cmp latestPkg st.package = some .gt then
      match env.fetch with
      | .ok _ =>
        if env.verifyOk then
          if env.unpackOk then
            some ({ st with status := .Stopped }, none, [UpdaterMessage.Update latestPkg])
          else none
        else none
      | .error _ => some (st, some TIMEOUT_MS, [])
    else some (st, some TIMEOUT_MS, [])
  | .error _ => some (st, some TIMEOUT_MS, [])

/-- Claim C4: for one timer tick while `Running`: a failed query, a
candidate that is not strictly newer, or a failed fetch all leave the state
unchanged (still `Running`), reschedule the timer and emit no message; a
strictly newer candidate whose fetch, verification and unpack succeed
flips the status to `Stopped` and emits exactly one `Update(new_package)`
message. -/
theorem updater_timeout_spec (env : TimeoutEnv) (st : UpdaterState)
    (_hrun : st.status = .Running) :
    (env.query = .error () → handle_timeout env st = some (st, some TIMEOUT_MS, []))
      ∧ (∀ latestPkg : Package, env.query = .ok latestPkg →
          ¬ package_cmp latestPkg st.package = some .gt →
          handle_timeout env st = some (st, some TIMEOUT_MS, []))
      ∧ (∀ latestPkg : Package, env.query = .ok latestPkg →
          package_cmp latestPkg st.package = some .gt →
          env.fetch = .error () →
          handle_timeout env st = some (st, some TIMEOUT_MS, []))
      ∧ (∀ latestPkg : Package, env.query = .ok latestPkg →
          package_cmp latestPkg st.package = some .gt →
          env.fetch = .ok () → env.verifyOk = true → env.unpackOk = true →
          handle_timeout env st = some ({ st with status := .Stopped }, none,
            [UpdaterMessage.Update latestPkg])) := by
  refine ⟨fun hq => ?_, fun lp hq hc => ?_, fun lp hq hc hf => ?_, fun lp hq hc hf hv hu => ?_⟩
  · simp [handle_timeout, hq]
  · simp [handle_timeout, hq, hc]
  · simp [handle_timeout, hq, hc, hf]
  · simp [handle_timeout, hq, hc, hf, hv, hu]

theorem updater_timeout_spec_witness :
    handle_timeout
        ⟨.ok (Package.new "acme" "web" "1.3.0" "20230201000000"), .ok (), true, true⟩
        ⟨"http://repo", Package.new "acme" "web" "1.2.3" "20230101000000", .Running⟩
      = some (⟨"http://repo", Package.new "acme" "web" "1.2.3" "20230101000000", .Stopped⟩,
          none, [UpdaterMessage.Update (Package.new "acme" "web" "1.3.0" "20230201000000")]) :=
  (updater_timeout_spec _ _ rfl).2.2.2 _ rfl (by decide) rfl rfl rfl

/-! ### Hook execution and the health check (C5) -/

/-- A subprocess outcome: exit code (`None` when killed by a signal) and the
captured output streams. -/
structure ProcOut where
  exitCode : Option Int
  stdout : String
  stderr : String

/-- `Hook::format_output`: stdout, a newline, stderr. -/
def format_output (o : ProcOut) : String :=
  o.stdout ++ "\n" ++ o.stderr

/-- Outcome record for one `Hook::run` invocation: the result of the
`compile` step and the subprocess launch (`none` = could not launch). -/
structure HookRunEnv where
  compileResult : Except ErrorKind Unit
  launch : Option ProcOut

/-- `Hook::run` (`pkg.rs`): compile, execute the compiled path, exit code 0
succeeds with the captured output; any other code, a signal death, or a
launch failure becomes `HookFailed` (code `-1` when no code is available). -/
def hook_run (t : HookType) (hookPath : String) (env : HookRunEnv) :
    Except ErrorKind String :=
  match env.compileResult with
  | .error e => .error e
  | .ok _ =>
    match env.launch with
    | some result =>
      match result.exitCode with
      | some code =>
        if code = 0 then .ok (format_output result)
        else .error (.HookFailed t code (format_output result))
      | none => .error (.HookFailed t (-1) (format_output result))
    | none => .error (.HookFailed t (-1) ("couldn't run hook: " ++ hookPath))

/-- Modelled from the spec: `health_check::CheckResult` (not under `src/`),
the four result constructors each carrying the captured output. -/
inductive CheckResult where
  | ok (output : String)
  | warning (output : String)
  | critical (output : String)
  | unknown (output : String)
deriving DecidableEq

/-- Outcome record for one `Package::health_check` call: the health-check
hook when one is configured (with its run outcomes), plus the `Status`
signal result and the `config.toml` read used by the default path. -/
structure HealthCheckEnv where
  hook : Option HookRunEnv
  signalStatus : Except ErrorKind String
  lastConfig : Except ErrorKind String

/-- `Package::health_check` (`pkg.rs`): map hook exit codes 0/1/2/3 to
OK/Warning/Critical/Unknown, any other `HookFailed` code to a `HealthCheck`
error; with no hook, issue a `Status` signal and report OK with the signal
output concatenated with the last rendered configuration. -/
def health_check (p : Package) (env : HealthCheckEnv) :
    Except ErrorKind CheckResult :=
  match env.hook with
  | some henv =>
    match hook_run .HealthCheck (hook_path p .HealthCheck) henv with
    | .ok output => .ok (.ok output)
    | .error (.HookFailed _ code output) =>
      if code = 1 then .ok (.warning output)
      else if code = 2 then .ok (.critical output)
      else if code = 3 then .ok (.unknown output)
      else .error (.HealthCheck
        ("hook exited code=" ++ toString code ++ ", output=" ++ output))
    | .error e => .error e
  | none =>
    match env.signalStatus with
    | .error e => .error e
    | .ok status_output =>
      match env.lastConfig with
      | .error e => .error e
      | .ok last_config => .ok (.ok (status_output ++ "\n" ++ last_config))

/-- Claim C5: with a configured health-check hook, `health_check` maps the
hook's exit code 0 to OK with the captured output, 1 to Warning, 2 to
Critical, 3 to Unknown, and any other non-zero code to a `HealthCheck`
error carrying the code and captured output; with no hook it issues a
`Status` signal and returns OK with the signal output concatenated with the
last rendered configuration snapshot. -/
theorem health_check_mapping (p : Package) (env : HealthCheckEnv)
    (henv : HookRunEnv) (out : ProcOut) :
    (env.hook = some henv → henv.compileResult = .ok () → henv.launch = some out →
      ((out.exitCode = some 0 → health_check p env = .ok (.ok (format_output out)))
        ∧ (out.exitCode = some 1 → health_check p env = .ok (.warning (format_output out)))
        ∧ (out.exitCode = some 2 → health_check p env = .ok (.critical (format_output out)))
        ∧ (out.exitCode = some 3 → health_check p env = .ok (.unknown (format_output out)))
        ∧ (∀ code : Int, out.exitCode = some code →
            code ≠ 0 → code ≠ 1 → code ≠ 2 → code ≠ 3 →
            health_check p env = .error (.HealthCheck
              ("hook exited code=" ++ toString code ++ ", output=" ++ format_output out)))))
      ∧ (env.hook = none → ∀ so lc : String,
          env.signalStatus = .ok so → env.lastConfig = .ok lc →
          health_check p env = .ok (.ok (so ++ "\n" ++ lc))) := by
  constructor
  · intro hh hc hl
    refine ⟨fun he => ?_, fun he => ?_, fun he => ?_, fun he => ?_,
      fun code he h0 h1 h2 h3 => ?_⟩
    · simp [health_check, hook_run, hh, hc, hl, he]
    · simp [health_check, hook_run, hh, hc, hl, he]
    · simp [health_check, hook_run, hh, hc, hl, he]
    · simp [health_check, hook_run, hh, hc, hl, he]
    · simp [health_check, hook_run, hh, hc, hl, he, h0, h1, h2, h3]
  · intro hh so lc hs hl
    simp [health_check, hh, hs, hl]

theorem health_check_mapping_witness :
    health_check (Package.new "acme" "web" "1.2.3" "1")
        ⟨some ⟨.ok (), some ⟨some 4, "so", "se"⟩⟩, .ok "st", .ok "cfg"⟩
      = .error (.HealthCheck ("hook exited code=" ++ toString (4 : Int)
          ++ ", output=" ++ format_output ⟨some 4, "so", "se"⟩)) :=
  ((health_check_mapping (Package.new "acme" "web" "1.2.3" "1") _
      ⟨.ok (), some ⟨some 4, "so", "se"⟩⟩ ⟨some 4, "so", "se"⟩).1
    rfl rfl rfl).2.2.2.2 4 rfl (by decide) (by decide) (by decide) (by decide)

/-! ### PackageArchive — IDENT and DEPS handling (C6)

`read_metadata` shells out to the decrypt/extract collaborator; the two
reads a `package()` call performs are recorded in `ArchiveEnv`. -/

structure ArchiveEnv where
  identBody : Except ErrorKind String
  depsBody : Except ErrorKind String

/-- The dependency-line loop in `PackageArchive::deps`: parse each line
independently, keep successes, silently skip malformed lines. -/
def parseDeps : List String → List Package
  | [] => []
  | d :: rest =>
    match from_ident d with
    | .ok p => p :: parseDeps rest
    | .error _ => parseDeps rest

/-- `PackageArchive::deps` (`pkg.rs`): split the `DEPS` body on newlines and
parse leniently; a `MetaFileNotFound` read failure becomes `Ok(None)`, any
other read failure propagates. -/
def deps (env : ArchiveEnv) : Except ErrorKind (Option (List Package)) :=
  match env.depsBody with
  | .ok body => .ok (some (parseDeps (splitStr '\n' body)))
  | .error (.MetaFileNotFound _) => .ok none
  | .error e => .error e

/-- `PackageArchive::package` (`pkg.rs`): read and parse `IDENT`, then add
each dependency from `deps()`; `Ok(None)` from `deps()` leaves the package
untouched. -/
def package (env : ArchiveEnv) : Except ErrorKind Package :=
  match env.identBody with
  | .error e => .error e
  | .ok body =>
    match from_ident body with
    | .error e => .error e
    | .ok pkg =>
      match deps env with
      | .ok (some ds) => .ok (ds.foldl Package.add_dep pkg)
      | .ok none => .ok pkg
      | .error e => .error e

def okOpt {α : Type} : Except ErrorKind α → Option α
  | .ok a => some a
  | .error _ => none

def isOkE {α : Type} : Except ErrorKind α → Bool
  | .ok _ => true
  | .error _ => false

theorem parseDeps_eq_filterMap (l : List String) :
    parseDeps l = l.filterMap (fun d => okOpt (from_ident d)) := by
  induction l with
  | nil => rfl
  | cons d rest ih =>
    cases h : from_ident d with
    | ok p => simp [parseDeps, h, okOpt, ih]
    | error e => simp [parseDeps, h, okOpt, ih]

theorem from_ident_deps_none {s : String} {p : Package}
    (h : from_ident s = .ok p) : p.deps = none := by
  unfold from_ident at h
  split at h
  · cases h
    rfl
  · cases h

/-- Claim C6: `package()` parses `IDENT` and handles `DEPS` leniently — an
absent `DEPS` (`MetaFileNotFound`) leaves `deps` empty with no error, any
other `DEPS` read failure propagates, and each dependency line is parsed
independently with malformed lines silently skipped, so the archive read
succeeds whenever `IDENT` parses and `DEPS` is readable or absent. -/
theorem archive_package_deps_lenient (env : ArchiveEnv) (f : MetaFile)
    (body : String) (pkg : Package) (e : ErrorKind) :
    (env.depsBody = .error (.MetaFileNotFound f) → env.identBody = .ok body →
      from_ident body = .ok pkg → package env = .ok pkg ∧ pkg.deps = none)
      ∧ (env.depsBody = .error e → (∀ g : MetaFile, e ≠ .MetaFileNotFound g) →
          env.identBody = .ok body → from_ident body = .ok pkg →
          package env = .error e)
      ∧ (env.depsBody = .ok body →
          deps env = .ok (some ((splitStr '\n' body).filterMap
            (fun d => okOpt (from_ident d)))))
      ∧ (∀ dbody : String, env.depsBody = .ok dbody → env.identBody = .ok body →
          from_ident body = .ok pkg → isOkE (package env) = true) := by
  refine ⟨fun hd hi hf => ?_, fun hd hne hi hf => ?_, fun hd => ?_,
    fun dbody hd hi hf => ?_⟩
  · exact ⟨by simp [package, deps, hd, hi, hf], from_ident_deps_none hf⟩
  · have hde : deps env = .error e := by
      unfold deps
      rw [hd]
      cases e <;> first | rfl | exact absurd rfl (hne _)
    simp [package, hi, hf, hde]
  · simp [deps, hd, parseDeps_eq_filterMap]
  · simp [package, deps, hd, hi, hf, isOkE]

theorem archive_package_deps_lenient_witness :
    package ⟨.ok "a/b/c/d", .error (.MetaFileNotFound .Deps)⟩
        = .ok (Package.new "a" "b" "c" "d")
      ∧ (Package.new "a" "b" "c" "d").deps = none :=
  (archive_package_deps_lenient ⟨.ok "a/b/c/d", .error (.MetaFileNotFound .Deps)⟩
      .Deps "a/b/c/d" (Package.new "a" "b" "c" "d") .UnpackFailed).1 rfl rfl rfl

/-! ### The version grammar (C7)

`gScan` is an executable recognizer for the claim's grammar
`digits(.digits)* (-extension)?`, written as a state machine over the
characters: the flag is `true` exactly when at least one more digit is
required (at the start and right after a dot). -/

def gScan : List Char → Bool → Bool
  | [], needDigit => !needDigit
  | c :: rest, true => c.isDigit && gScan rest false
  | c :: rest, false =>
    if c.isDigit then gScan rest false
    else if c = '.' then gScan rest true
    else if c = '-' then !rest.isEmpty
    else false

/-- Every numeric component of the (leading) digits-and-dots run fits in a
`u64`. -/
def inRange (s : String) : Bool :=
  (splitCh '.' (s.data.takeWhile isVerChar)).all
    (fun g => decide (digitsVal g < 18446744073709551616))

theorem splitCh_ne_nil (sep : Char) (l : List Char) : splitCh sep l ≠ [] := by
  cases l with
  | nil => simp [splitCh]
  | cons c t =>
    unfold splitCh
    by_cases h : c = sep
    · simp [h]
    · cases hs : splitCh sep t with
      | nil => simp [h, hs]
      | cons x r => simp [h, hs]

theorem splitCh_cons_sep (sep : Char) (t : List Char) :
    splitCh sep (sep :: t) = [] :: splitCh sep t := by
  conv_lhs => unfold splitCh
  rw [if_pos rfl]

theorem splitCh_cons_ne (sep c : Char) (t : List Char) (h : ¬ c = sep)
    (h0 : List Char) (r0 : List (List Char)) (hs : splitCh sep t = h0 :: r0) :
    splitCh sep (c :: t) = (c :: h0) :: r0 := by
  conv_lhs => unfold splitCh
  rw [if_neg h, hs]

theorem gScan_groups : ∀ l : List Char,
    (gScan l true = true →
      ∀ g ∈ splitCh '.' (l.takeWhile isVerChar), g ≠ [] ∧ g.all Char.isDigit = true)
      ∧ (gScan l false = true →
          ∀ h r, splitCh '.' (l.takeWhile isVerChar) = h :: r →
            h.all Char.isDigit = true ∧ ∀ g ∈ r, g ≠ [] ∧ g.all Char.isDigit = true) := by
  intro l
  induction l with
  | nil =>
    constructor
    · intro hs
      cases hs
    · intro _ h r heq
      simp [splitCh] at heq
      obtain ⟨hh, hr⟩ := heq
      subst hh
      subst hr
      exact ⟨rfl, fun g hg => by cases hg⟩
  | cons c t ih =>
    have hdot_digit : ('.' : Char).isDigit = false := by decide
    constructor
    · intro hs
      have hc : c.isDigit = true := by
        have := hs
        unfold gScan at this
        exact (Bool.and_eq_true _ _).mp this |>.1
      have ht : gScan t false = true := by
        have := hs
        unfold gScan at this
        exact (Bool.and_eq_true _ _).mp this |>.2
      have hv : isVerChar c = true := by simp [isVerChar, hc]
      have hcd : ¬ c = '.' := by
        intro h
        rw [h] at hc
        cases hc.symm.trans hdot_digit
      rw [List.takeWhile_cons, if_pos hv]
      obtain ⟨h0, r0, hsplit⟩ :
          ∃ h0 r0, splitCh '.' (t.takeWhile isVerChar) = h0 :: r0 := by
        cases hsc : splitCh '.' (t.takeWhile isVerChar) with
        | nil => exact absurd hsc (splitCh_ne_nil _ _)
        | cons x r => exact ⟨x, r, rfl⟩
      have hrec : splitCh '.' (c :: t.takeWhile isVerChar) = (c :: h0) :: r0 :=
        splitCh_cons_ne '.' c (t.takeWhile isVerChar) hcd h0 r0 hsplit
      rw [hrec]
      obtain ⟨hh0, hr0⟩ := (ih.2 ht) h0 r0 hsplit
      intro g hg
      cases hg with
      | head => exact ⟨by simp, by simp [hc, hh0]⟩
      | tail _ hmem => exact hr0 g hmem
    · intro hs h r heq
      by_cases hc : c.isDigit = true
      · have ht : gScan t false = true := by
          have := hs
          unfold gScan at this
          rw [if_pos hc] at this
          exact this
        have hv : isVerChar c = true := by simp [isVerChar, hc]
        have hcd : ¬ c = '.' := by
          intro hhh
          rw [hhh] at hc
          cases hc.symm.trans hdot_digit
        rw [List.takeWhile_cons, if_pos hv] at heq
        obtain ⟨h0, r0, hsplit⟩ :
            ∃ h0 r0, splitCh '.' (t.takeWhile isVerChar) = h0 :: r0 := by
          cases hsc : splitCh '.' (t.takeWhile isVerChar) with
          | nil => exact absurd hsc (splitCh_ne_nil _ _)
          | cons x rr => exact ⟨x, rr, rfl⟩
        have hrec : splitCh '.' (c :: t.takeWhile isVerChar) = (c :: h0) :: r0 :=
          splitCh_cons_ne '.' c (t.takeWhile isVerChar) hcd h0 r0 hsplit
        rw [hrec] at heq
        obtain ⟨hh, hr⟩ := List.cons.inj heq
        subst hh
        subst hr
        obtain ⟨hh0, hr0⟩ := (ih.2 ht) h0 r0 hsplit
        exact ⟨by simp [hc, hh0], hr0⟩
      · by_cases hcd : c = '.'
        · subst hcd
          have ht : gScan t true = true := by
            have := hs
            unfold gScan at this
            rw [if_neg (by simp [hdot_digit]), if_pos rfl] at this
            exact this
          have hv : isVerChar '.' = true := by decide
          rw [List.takeWhile_cons, if_pos hv] at heq
          have hrec : splitCh '.' ('.' :: t.takeWhile isVerChar)
              = [] :: splitCh '.' (t.takeWhile isVerChar) :=
            splitCh_cons_sep '.' (t.takeWhile isVerChar)
          rw [hrec] at heq
          obtain ⟨hh, hr⟩ := List.cons.inj heq
          subst hh
          subst hr
          exact ⟨rfl, ih.1 ht⟩
        · have hv : isVerChar c = false := by
            simp [isVerChar]
            exact ⟨by simpa using hc, hcd⟩
          rw [List.takeWhile_cons, if_neg (by simp [hv])] at heq
          simp [splitCh] at heq
          obtain ⟨hh, hr⟩ := heq
          subst hh
          subst hr
          exact ⟨rfl, by intro g hg; cases hg⟩

theorem gScan_head_digit {l : List Char} (hs : gScan l true = true) :
    ∃ c t, l = c :: t ∧ c.isDigit = true := by
  cases l with
  | nil => cases hs
  | cons c t =>
    refine ⟨c, t, rfl, ?_⟩
    unfold gScan at hs
    exact (Bool.and_eq_true _ _).mp hs |>.1

theorem split_version_of_grammar (s : String) (hs : gScan s.data true = true) :
    ∃ ext : Option String,
      split_version s
        = .ok ((splitCh '.' (s.data.takeWhile isVerChar)).map String.mk, ext) := by
  obtain ⟨c, t, hl, hc⟩ := gScan_head_digit hs
  have hv : isVerChar c = true := by simp [isVerChar, hc]
  have hcond : (!isVerChar c) = false := by rw [hv]; rfl
  unfold split_version
  rw [hl]
  simp only [List.dropWhile_cons, hcond, Bool.false_eq_true, if_false,
    List.isEmpty_cons]
  exact ⟨extAfter (if isVerChar c = true then t.dropWhile isVerChar else c :: t), rfl⟩

theorem parseU64_of_good (g : List Char) (hne : g ≠ [])
    (hd : g.all Char.isDigit = true) (hb : digitsVal g < 18446744073709551616) :
    parseU64 (String.mk g) = .ok (digitsVal g) := by
  unfold parseU64
  have hdata : (String.mk g).data = g := rfl
  rw [hdata]
  have hemp : g.isEmpty = false := by
    cases g with
    | nil => exact absurd rfl hne
    | cons x xs => rfl
  simp [hemp, hd, hb]

theorem parseAll_of_good (gs : List (List Char))
    (h : ∀ g ∈ gs, g ≠ [] ∧ g.all Char.isDigit = true
      ∧ digitsVal g < 18446744073709551616) :
    ∃ xs : List Nat, parseAll (gs.map String.mk) = .ok xs := by
  induction gs with
  | nil => exact ⟨[], rfl⟩
  | cons g rest ih =>
    obtain ⟨hne, hd, hb⟩ := h g (by simp)
    obtain ⟨xs, hxs⟩ := ih (fun g' hg' => h g' (by simp [hg']))
    refine ⟨digitsVal g :: xs, ?_⟩
    rw [List.map_cons]
    unfold parseAll
    rw [parseU64_of_good g hne hd hb, hxs]

theorem grammar_parseAll (s : String) (hs : gScan s.data true = true)
    (hr : inRange s = true) :
    ∃ xs : List Nat,
      parseAll ((splitCh '.' (s.data.takeWhile isVerChar)).map String.mk) = .ok xs := by
  apply parseAll_of_good
  intro g hg
  obtain ⟨hne, hd⟩ := (gScan_groups s.data).1 hs g hg
  have hb : digitsVal g < 18446744073709551616 := by
    have := (List.all_eq_true.mp hr) g hg
    exact of_decide_eq_true this
  exact ⟨hne, hd, hb⟩

theorem split_version_err_of_no_verchar (s : String)
    (h : s.data.all (fun c => !isVerChar c) = true) :
    split_version s = .error .BadVersion := by
  unfold split_version
  have hdrop : s.data.dropWhile (fun c => !isVerChar c) = [] :=
    List.dropWhile_eq_nil_iff.mpr (fun a ha => (List.all_eq_true.mp h) a ha)
  rw [hdrop]
  rfl

theorem split_version_err_only {s : String} {e : ErrorKind}
    (h : split_version s = .error e) : e = .BadVersion := by
  unfold split_version at h
  by_cases hc : (s.data.dropWhile (fun c => !isVerChar c)).isEmpty = true
  · rw [if_pos hc] at h
    cases h
    rfl
  · rw [if_neg hc] at h
    cases h

/-- Counterexample to claim C7: `"abc1"` does not conform to the grammar
`digits(.digits)* (-extension)?` yet `version_sort "abc1" "1"` succeeds
(the regex is unanchored, so the leading junk is skipped); and the
grammar-conforming `"18446744073709551616"` (one numeric component, equal
to `2^64`) makes `version_sort` fail because the component does not fit in
a `u64`. -/
theorem version_grammar_counterexample :
    (gScan "abc1".data true = false ∧ version_sort "abc1" "1" = .ok .eq)
      ∧ (gScan "18446744073709551616".data true = true
          ∧ version_sort "18446744073709551616" "1" = .error .BadVersion) :=
  ⟨⟨by decide, by decide⟩, ⟨by decide, by decide⟩⟩

/-- Claim C7 as amended: `version_sort` fails with `BadVersion` when either
version string contains no digit or dot at all (the unanchored pattern then
finds no match); a string that merely breaks the grammar while containing a
digit or dot is not rejected — the comparison uses its first digits-and-dots
run; and for every pair of grammar-conforming version strings whose numeric
components each fit in a `u64`, `version_sort` returns an `Ordering`. -/
theorem version_sort_grammar_amended (a b : String) :
    (a.data.all (fun c => !isVerChar c) = true →
        version_sort a b = .error .BadVersion)
      ∧ (b.data.all (fun c => !isVerChar c) = true →
          version_sort a b = .error .BadVersion)
      ∧ (gScan a.data true = true → gScan b.data true = true →
          inRange a = true → inRange b = true →
          isOkE (version_sort a b) = true) := by
  refine ⟨fun ha => ?_, fun hb => ?_, fun hga hgb hra hrb => ?_⟩
  · unfold version_sort
    rw [split_version_err_of_no_verchar a ha]
  · unfold version_sort
    cases hsa : split_version a with
    | error e => rw [split_version_err_only hsa]
    | ok pe =>
      obtain ⟨pa, ea⟩ := pe
      rw [split_version_err_of_no_verchar b hb]
  · obtain ⟨ea, hsa⟩ := split_version_of_grammar a hga
    obtain ⟨eb, hsb⟩ := split_version_of_grammar b hgb
    obtain ⟨xs, hxs⟩ := grammar_parseAll a hga hra
    obtain ⟨ys, hys⟩ := grammar_parseAll b hgb hrb
    rw [version_sort_eval a b _ _ ea eb xs ys hsa hsb hxs hys]
    rfl

theorem version_sort_grammar_amended_witness :
    gScan "1.0".data true = true ∧ inRange "1.0" = true
      ∧ gScan "2".data true = true ∧ inRange "2" = true
      ∧ isOkE (version_sort "1.0" "2") = true :=
  ⟨by decide, by decide, by decide, by decide,
    (version_sort_grammar_amended "1.0" "2").2.2
      (by decide) (by decide) (by decide) (by decide)⟩

/-! ### Hook.compile and its effect on the compiled file (C8)

The compiled path's content is the state (`none` = no file).  The outcomes
of the collaborator steps are recorded in environment records; `written`
and `copied` are `none` on a complete write and `some n` when the write
fails after `n` characters.  Opening with `truncate(true)` destroys the
prior content before the write starts, and `fs::copy` likewise truncates
the destination once the source opens, so a failing write leaves a
truncated or partially-written file. -/

structure RenderEnv where
  templateOk : Bool
  tomlOk : Bool
  rendered : String
  utf8Ok : Bool
  openOk : Bool
  written : Option Nat

structure CopyEnv where
  readOk : Bool
  copied : Option Nat

def partialStr (s : String) (n : Nat) : String :=
  String.mk (s.data.take n)

/-- The `Some(ctx)` branch of `Hook::compile`: template compile, toml
materialization, render, UTF-8 conversion, open-with-truncate, write. -/
def compile_render (env : RenderEnv) (prior : Option String) :
    Except ErrorKind Unit × Option String :=
  if !env.templateOk then (.error .IoFailure, prior)
  else if !env.tomlOk then (.error .IoFailure, prior)
  else if !env.utf8Ok then (.error .IoFailure, prior)
  else if !env.openOk then (.error .IoFailure, prior)
  else
    match env.written with
    | none => (.ok (), some env.rendered)
    | some n => (.error .IoFailure, some (partialStr env.rendered n))

/-- The `None` branch of `Hook::compile`: `fs::copy(template, path)`. -/
def compile_copy (templateContent : String) (env : CopyEnv) (prior : Option String) :
    Except ErrorKind Unit × Option String :=
  if !env.readOk then (.error .IoFailure, prior)
  else
    match env.copied with
    | none => (.ok (), some templateContent)
    | some n => (.error .IoFailure, some (partialStr templateContent n))

/-- `Hook::compile` (`pkg.rs`): render through mustache when a context is
supplied, otherwise copy the template byte-for-byte. -/
def hook_compile (ctx : Option RenderEnv) (templateContent : String)
    (cenv : CopyEnv) (prior : Option String) :
    Except ErrorKind Unit × Option String :=
  match ctx with
  | some renv => compile_render renv prior
  | none => compile_copy templateContent cenv prior

/-- Counterexample to claim C8: with a context, when every step up to the
open succeeds and the write fails after one character of the two-character
rendered content, the exit path is a failure yet the compiled file is
neither untouched (`"old"`) nor fully written (`"ab"`) — it holds the
partial `"a"`. -/
theorem compile_atomicity_counterexample :
    (hook_compile (some ⟨true, true, "ab", true, true, some 1⟩) "t"
        ⟨true, none⟩ (some "old")).1 = .error .IoFailure
      ∧ (hook_compile (some ⟨true, true, "ab", true, true, some 1⟩) "t"
          ⟨true, none⟩ (some "old")).2 = some "a"
      ∧ ¬ ((hook_compile (some ⟨true, true, "ab", true, true, some 1⟩) "t"
            ⟨true, none⟩ (some "old")).2 = some "old"
          ∨ (hook_compile (some ⟨true, true, "ab", true, true, some 1⟩) "t"
              ⟨true, none⟩ (some "old")).2 = some "ab") :=
  ⟨by decide, by decide, by decide⟩

/-- Claim C8 as amended: every exit path that fails before the compiled
file is opened (template compile, configuration materialization, UTF-8
conversion or the open itself; the source open in the copy branch) leaves
the compiled path untouched, and every successful exit leaves it fully
written; a write failure after the open, however, may leave the file
truncated or partially written. -/
theorem compile_atomicity_amended (renv : RenderEnv) (cenv : CopyEnv)
    (templateContent : String) (prior : Option String) :
    ((renv.templateOk = false ∨ renv.tomlOk = false ∨ renv.utf8Ok = false
        ∨ renv.openOk = false) →
        hook_compile (some renv) templateContent cenv prior = (.error .IoFailure, prior))
      ∧ (renv.templateOk = true → renv.tomlOk = true → renv.utf8Ok = true →
          renv.openOk = true → renv.written = none →
          hook_compile (some renv) templateContent cenv prior
            = (.ok (), some renv.rendered))
      ∧ (cenv.readOk = false →
          hook_compile none templateContent cenv prior = (.error .IoFailure, prior))
      ∧ (cenv.readOk = true → cenv.copied = none →
          hook_compile none templateContent cenv prior
            = (.ok (), some templateContent)) := by
  refine ⟨fun h => ?_, fun h1 h2 h3 h4 h5 => ?_, fun h => ?_, fun h1 h2 => ?_⟩
  · rcases h with h | h | h | h
    · simp [hook_compile, compile_render, h]
    · cases h1 : renv.templateOk
      · simp [hook_compile, compile_render, h1]
      · simp [hook_compile, compile_render, h1, h]
    · cases h1 : renv.templateOk
      · simp [hook_compile, compile_render, h1]
      · cases h2 : renv.tomlOk
        · simp [hook_compile, compile_render, h1, h2]
        · simp [hook_compile, compile_render, h1, h2, h]
    · cases h1 : renv.templateOk
      · simp [hook_compile, compile_render, h1]
      · cases h2 : renv.tomlOk
        · simp [hook_compile, compile_render, h1, h2]
        · cases h3 : renv.utf8Ok
          · simp [hook_compile, compile_render, h1, h2, h3]
          · simp [hook_compile, compile_render, h1, h2, h3, h]
  · simp [hook_compile, compile_render, h1, h2, h3, h4, h5]
  · simp [hook_compile, compile_copy, h]
  · simp [hook_compile, compile_copy, h1, h2]

theorem compile_atomicity_amended_witness :
    hook_compile (some ⟨true, true, "ab", true, true, none⟩) "t"
        ⟨true, none⟩ (some "old") = (.ok (), some "ab") :=
  (compile_atomicity_amended ⟨true, true, "ab", true, true, none⟩
      ⟨true, none⟩ "t" (some "old")).2.1 rfl rfl rfl rfl rfl

/-! ### Package.copy_run — the run link (C9)

The filesystem mutations a `copy_run` call performs, in order.  `linkTarget`
is the current `read_link` result for the per-service `run` entry (`none` =
not a symlink / does not resolve); `srvcRunExists` is the `fs::metadata`
probe used by the no-hook branch.  Failure paths of the collaborators are
not modelled: the claim concerns which mutations the success path makes. -/

inductive FsOp where
  | compileHook
  | setPerm (path : String) (mode : String)
  | removeFile (path : String)
  | symlink (target link : String)
deriving DecidableEq

structure CopyRunEnv where
  runHook : Bool
  linkTarget : Option String
  srvcRunExists : Bool

/-- `Package::copy_run` (`pkg.rs`): with a `run` hook, always recompile the
hook, then rewrite the link only when `read_link` does not already yield
the compiled hook path; with no hook, force the raw run file's permissions,
remove any existing service `run` entry, and symlink unconditionally. -/
def copy_run (p : Package) (env : CopyRunEnv) : List FsOp :=
  if env.runHook then
    FsOp.compileHook ::
      (match env.linkTarget with
       | some path =>
         if path ≠ hook_path p .Run then
           [.setPerm (hook_path p .Run) "0755",
            .removeFile (srvc_join_path p "run"),
            .symlink (hook_path p .Run) (srvc_join_path p "run")]
         else []
       | none => [.symlink (hook_path p .Run) (srvc_join_path p "run")])
  else
    .setPerm (join_path p "run") "0755"
      :: (if env.srvcRunExists then [.removeFile (srvc_join_path p "run")] else [])
      ++ [.symlink (join_path p "run") (srvc_join_path p "run")]

/-- Counterexample to claim C9: no `run` hook is defined and the service
`run` link already points at the correct target (the package's raw run
file), yet `copy_run` still mutates the filesystem — it removes the link
and recreates it (plus a permission write). -/
theorem copy_run_counterexample :
    copy_run (Package.new "acme" "web" "1.0" "1")
        ⟨false, some (join_path (Package.new "acme" "web" "1.0" "1") "run"), true⟩
      = [.setPerm (join_path (Package.new "acme" "web" "1.0" "1") "run") "0755",
         .removeFile (srvc_join_path (Package.new "acme" "web" "1.0" "1") "run"),
         .symlink (join_path (Package.new "acme" "web" "1.0" "1") "run")
           (srvc_join_path (Package.new "acme" "web" "1.0" "1") "run")] := rfl

/-- Claim C9 as amended: in the run-hook branch the link is rewritten only
when it does not already point at the compiled hook — a second call with
the link in place performs no link operation, though it still recompiles
the hook (a filesystem write); in the no-hook branch the link is removed
(when present) and recreated unconditionally, even when it already points
at the correct target. -/
theorem copy_run_amended (p : Package) (env : CopyRunEnv) :
    (env.runHook = true → env.linkTarget = some (hook_path p .Run) →
        copy_run p env = [.compileHook])
      ∧ (env.runHook = false →
          FsOp.symlink (join_path p "run") (srvc_join_path p "run")
            ∈ copy_run p env) := by
  constructor
  · intro hr hl
    simp [copy_run, hr, hl]
  · intro hr
    cases he : env.srvcRunExists <;> simp [copy_run, hr, he]

theorem copy_run_amended_witness :
    copy_run (Package.new "acme" "web" "1.0" "1")
        ⟨true, some (hook_path (Package.new "acme" "web" "1.0" "1") .Run), false⟩
      = [.compileHook] :=
  (copy_run_amended (Package.new "acme" "web" "1.0" "1")
      ⟨true, some (hook_path (Package.new "acme" "web" "1.0" "1") .Run), false⟩).1
    rfl rfl

/-! ### Package.from_path (C10) -/

/-- Counterexample to claim C10: the path `"/opt/bldr/pkgs"` is rooted
under the installation root (`starts_with` is reflexive), yet `from_path`
panics — its raw `/`-split has only 4 items, so indexing item 4 is out of
range — instead of totally returning a `Package`. -/
theorem from_path_counterexample :
    path_starts_with "/opt/bldr/pkgs" PACKAGE_HOME = true
      ∧ from_path "/opt/bldr/pkgs" = none :=
  ⟨by decide, rfl⟩

/-- Claim C10 as amended: for a path rooted under the installation root
whose raw `/`-split has items at positions 3 through 6, `from_path`
returns the `Package` whose coordinates are those trimmed items; for a
rooted path whose split has at most 6 items it panics on out-of-range
indexing; for a path not rooted under the installation root it fails with
`PackageLoad`. -/
theorem from_path_amended (spath : String) (a b c d : String) :
    (path_starts_with spath PACKAGE_HOME = true →
        (splitStr '/' spath)[3]? = some a → (splitStr '/' spath)[4]? = some b →
        (splitStr '/' spath)[5]? = some c → (splitStr '/' spath)[6]? = some d →
        from_path spath = some (.ok (Package.new (trimStr a) (trimStr b)
          (trimStr c) (trimStr d))))
      ∧ (path_starts_with spath PACKAGE_HOME = true →
          (splitStr '/' spath).length ≤ 6 → from_path spath = none)
      ∧ (path_starts_with spath PACKAGE_HOME = false →
          from_path spath = some (.error (.PackageLoad spath))) := by
  refine ⟨fun h h3 h4 h5 h6 => ?_, fun h hlen => ?_, fun h => ?_⟩
  · simp [from_path, h, h3, h4, h5, h6]
  · have h6 : (splitStr '/' spath)[6]? = none := List.getElem?_eq_none hlen
    cases h3 : (splitStr '/' spath)[3]? <;>
      cases h4 : (splitStr '/' spath)[4]? <;>
        cases h5 : (splitStr '/' spath)[5]? <;>
          simp [from_path, h, h3, h4, h5, h6]
  · simp [from_path, h]

theorem from_path_amended_witness :
    from_path "/opt/bldr/pkgs/acme/web/1.0.0/20230101"
      = some (.ok (Package.new (trimStr "pkgs") (trimStr "acme")
          (trimStr "web") (trimStr "1.0.0"))) :=
  (from_path_amended "/opt/bldr/pkgs/acme/web/1.0.0/20230101"
      "pkgs" "acme" "web" "1.0.0").1 (by decide) rfl rfl rfl rfl

theorem test_version_sort_simple :
    version_sort "1.0.0" "2.0.0" = .ok .lt
      ∧ version_sort "2.0.1" "2.0.0" = .ok .gt
      ∧ version_sort "2.1.1" "2.1.1" = .ok .eq
      ∧ version_sort "20150521131347" "20150521131346" = .ok .gt := by
  refine ⟨by decide, by decide, by decide, by decide⟩

theorem test_version_sort_complex :
    version_sort "1.0.0-alpha2" "1.0.0-alpha1" = .ok .gt
      ∧ version_sort "1.0.0-beta1" "1.0.0-alpha1000" = .ok .gt
      ∧ version_sort "2.1.1" "2.1.1-alpha2" = .ok .gt
      ∧ version_sort "2.1.1-alpha2" "2.1.1" = .ok .lt := by
  refine ⟨by decide, by decide, by decide, by decide⟩

theorem test_split_version_both_parts :
    split_version "1.2.3-beta16" = .ok (["1", "2", "3"], some "beta16") := by
  decide
